import Mathlib

/-!
Verification of the CL0 reactive-rule node (crates cl0_parser and cl0_node).

This file gives a shallow embedding of the rule-engine core and of the
surface-syntax lexer, printer and parser, translated from the Rust source:

* crates/cl0_parser/src/ast.rs    — AST types and their Display rendering
* crates/cl0_parser/src/token.rs  — token type (variants EndRule, Number and
  At appear in lexer.rs/parser.rs and are included here)
* crates/cl0_parser/src/lexer.rs  — the lexer, in particular the
  context-sensitive dot (dot versus end-of-rule)
* crates/cl0_parser/src/parser.rs — the chumsky rule parser, embedded as a
  fuelled backtracking recursive-descent parser over token lists
* crates/cl0_node/src/utils.rs    — overall_status_from_set, AliasNamespace
* crates/cl0_node/src/node.rs     — update_var, store_atomic_condition,
  get_atomic_condition, get_rule_status, process_rule, the new_rules route
* crates/cl0_node/src/event_handler.rs — the handler's process_action route
  and process_rule_internal

Modelling conventions: the concurrent maps (DashMap) are association lists;
the DashSet of statuses is a list (the aggregator only tests membership);
in-place mutation is explicit state threading, and a function that can fail
returns its state as mutated so far together with an Except value, mirroring
the fact that Rust mutations performed before an early return persist.
A Rust panic is modelled as a distinct error constructor so that the panic
path and the Err path stay distinguishable.  The async route machinery is
modelled by direct calls; functions whose Rust bodies re-enter the node
through routes take the re-entered operation as an explicit function
argument, since the claims under study do not depend on its behaviour.
-/

namespace CL0

/-- Ternary activation value, from cl0_node/src/types.rs (ActivationStatus with
constructors True, False, Conflict).  utils.rs declares the same ternary under
its legacy name VarValue with third constructor Unknown; the spec states the
two names are equivalent, so a single type models both. -/
inductive ActivationStatus : Type where
  | True : ActivationStatus
  | False : ActivationStatus
  | Conflict : ActivationStatus
deriving DecidableEq, Repr

/-- A primitive condition: a named boolean variable (ast.rs, PrimitiveCondition). -/
inductive PrimitiveCondition : Type where
  | Var : String → PrimitiveCondition
deriving DecidableEq, Repr

mutual

/-- Atomic condition (ast.rs): a primitive variable, a compound rule bundle, or
a namespace-qualified sub-compound. -/
inductive AtomicCondition : Type where
  | Primitive : PrimitiveCondition → AtomicCondition
  | Compound : Compound → AtomicCondition
  | SubCompound : String → AtomicCondition → AtomicCondition

/-- A compound: a list of rules with an optional alias (ast.rs, Compound). -/
inductive Compound : Type where
  | mk : List Rule → Option String → Compound

/-- Condition tree (ast.rs, Condition). -/
inductive Condition : Type where
  | Atomic : AtomicCondition → Condition
  | Not : Condition → Condition
  | Conjunction : List Condition → Condition
  | Disjunction : List Condition → Condition
  | Parentheses : Condition → Condition

/-- Primitive event (ast.rs, PrimitiveEvent). -/
inductive PrimitiveEvent : Type where
  | Trigger : String → PrimitiveEvent
  | Production : AtomicCondition → PrimitiveEvent
  | Consumption : AtomicCondition → PrimitiveEvent

/-- Action combinator lists (ast.rs, ActionList). -/
inductive ActionList : Type where
  | Sequence : List Action → ActionList
  | Parallel : List Action → ActionList
  | Alternative : List Action → ActionList

/-- Action: a primitive event or a combinator list (ast.rs, Action). -/
inductive Action : Type where
  | Primitive : PrimitiveEvent → Action
  | List : ActionList → Action

/-- Reactive rule: ECA or CA (ast.rs, ReactiveRule). -/
inductive ReactiveRule : Type where
  | ECA : PrimitiveEvent → Option Condition → Action → ReactiveRule
  | CA : Condition → Action → ReactiveRule

/-- Declarative rule: CC or CT (ast.rs, DeclarativeRule). -/
inductive DeclarativeRule : Type where
  | CC : Option Condition → AtomicCondition → DeclarativeRule
  | CT : Option Condition → Condition → DeclarativeRule

/-- Case rule: bare action (ast.rs, CaseRule). -/
inductive CaseRule : Type where
  | mk : Action → CaseRule

/-- Fact rule: bare atomic condition (ast.rs, FactRule). -/
inductive FactRule : Type where
  | mk : AtomicCondition → FactRule

/-- Rule: the four rule kinds (ast.rs, Rule). -/
inductive Rule : Type where
  | Reactive : ReactiveRule → Rule
  | Declarative : DeclarativeRule → Rule
  | Case : CaseRule → Rule
  | Fact : FactRule → Rule

end

/-- The rule list of a compound. -/
def Compound.rules : Compound → List Rule
  | .mk rs _ => rs

/-- The optional alias of a compound. -/
def Compound.getAlias : Compound → Option String
  | .mk _ a => a

/-- The action of a case rule. -/
def CaseRule.action : CaseRule → Action
  | .mk a => a

/-- The condition of a fact rule. -/
def FactRule.condition : FactRule → AtomicCondition
  | .mk c => c

mutual

/-- Structural equality on atomic conditions, the embedding of the derived
PartialEq of ast.rs.  All the equality functions recurse on their first
argument only, so that they unfold definitionally. -/
def beqAtomicCondition : AtomicCondition → AtomicCondition → Bool
  | .Primitive a, b =>
    match b with
    | .Primitive b2 => a == b2
    | _ => false
  | .Compound a, b =>
    match b with
    | .Compound b2 => beqCompound a b2
    | _ => false
  | .SubCompound n a, b =>
    match b with
    | .SubCompound m b2 => n == m && beqAtomicCondition a b2
    | _ => false
termination_by structural a => a

/-- Structural equality on compounds. -/
def beqCompound : Compound → Compound → Bool
  | .mk rs al, b =>
    match b with
    | .mk rs2 al2 => beqRuleList rs rs2 && al == al2
termination_by structural a => a

/-- Structural equality on conditions. -/
def beqCondition : Condition → Condition → Bool
  | .Atomic a, b =>
    match b with
    | .Atomic b2 => beqAtomicCondition a b2
    | _ => false
  | .Not a, b =>
    match b with
    | .Not b2 => beqCondition a b2
    | _ => false
  | .Conjunction a, b =>
    match b with
    | .Conjunction b2 => beqConditionList a b2
    | _ => false
  | .Disjunction a, b =>
    match b with
    | .Disjunction b2 => beqConditionList a b2
    | _ => false
  | .Parentheses a, b =>
    match b with
    | .Parentheses b2 => beqCondition a b2
    | _ => false
termination_by structural a => a

/-- Structural equality on condition lists. -/
def beqConditionList : List Condition → List Condition → Bool
  | [], b =>
    match b with
    | [] => true
    | _ => false
  | a :: as_, b =>
    match b with
    | b1 :: bs => beqCondition a b1 && beqConditionList as_ bs
    | _ => false
termination_by structural a => a

/-- Structural equality on optional conditions. -/
def beqOptCondition : Option Condition → Option Condition → Bool
  | none, b =>
    match b with
    | none => true
    | _ => false
  | some a, b =>
    match b with
    | some b2 => beqCondition a b2
    | _ => false
termination_by structural a => a

/-- Structural equality on primitive events. -/
def beqPrimitiveEvent : PrimitiveEvent → PrimitiveEvent → Bool
  | .Trigger a, b =>
    match b with
    | .Trigger b2 => a == b2
    | _ => false
  | .Production a, b =>
    match b with
    | .Production b2 => beqAtomicCondition a b2
    | _ => false
  | .Consumption a, b =>
    match b with
    | .Consumption b2 => beqAtomicCondition a b2
    | _ => false
termination_by structural a => a

/-- Structural equality on action lists. -/
def beqActionList : ActionList → ActionList → Bool
  | .Sequence a, b =>
    match b with
    | .Sequence b2 => beqActions a b2
    | _ => false
  | .Parallel a, b =>
    match b with
    | .Parallel b2 => beqActions a b2
    | _ => false
  | .Alternative a, b =>
    match b with
    | .Alternative b2 => beqActions a b2
    | _ => false
termination_by structural a => a

/-- Structural equality on lists of actions. -/
def beqActions : List Action → List Action → Bool
  | [], b =>
    match b with
    | [] => true
    | _ => false
  | a :: as_, b =>
    match b with
    | b1 :: bs => beqAction a b1 && beqActions as_ bs
    | _ => false
termination_by structural a => a

/-- Structural equality on actions. -/
def beqAction : Action → Action → Bool
  | .Primitive a, b =>
    match b with
    | .Primitive b2 => beqPrimitiveEvent a b2
    | _ => false
  | .List a, b =>
    match b with
    | .List b2 => beqActionList a b2
    | _ => false
termination_by structural a => a

/-- Structural equality on reactive rules. -/
def beqReactiveRule : ReactiveRule → ReactiveRule → Bool
  | .ECA e c a, b =>
    match b with
    | .ECA e2 c2 a2 => beqPrimitiveEvent e e2 && beqOptCondition c c2 && beqAction a a2
    | _ => false
  | .CA c a, b =>
    match b with
    | .CA c2 a2 => beqCondition c c2 && beqAction a a2
    | _ => false
termination_by structural a => a

/-- Structural equality on declarative rules. -/
def beqDeclarativeRule : DeclarativeRule → DeclarativeRule → Bool
  | .CC p c, b =>
    match b with
    | .CC p2 c2 => beqOptCondition p p2 && beqAtomicCondition c c2
    | _ => false
  | .CT p c, b =>
    match b with
    | .CT p2 c2 => beqOptCondition p p2 && beqCondition c c2
    | _ => false
termination_by structural a => a

/-- Structural equality on rules. -/
def beqRule : Rule → Rule → Bool
  | .Reactive a, b =>
    match b with
    | .Reactive b2 => beqReactiveRule a b2
    | _ => false
  | .Declarative a, b =>
    match b with
    | .Declarative b2 => beqDeclarativeRule a b2
    | _ => false
  | .Case (.mk a), b =>
    match b with
    | .Case (.mk b2) => beqAction a b2
    | _ => false
  | .Fact (.mk a), b =>
    match b with
    | .Fact (.mk b2) => beqAtomicCondition a b2
    | _ => false
termination_by structural a => a

/-- Structural equality on rule lists. -/
def beqRuleList : List Rule → List Rule → Bool
  | [], b =>
    match b with
    | [] => true
    | _ => false
  | a :: as_, b =>
    match b with
    | b1 :: bs => beqRule a b1 && beqRuleList as_ bs
    | _ => false
termination_by structural a => a


end

mutual

/-- Display of a condition (ast.rs, impl Display for Condition). -/
def displayCondition : Condition → String
  | .Atomic ac => displayAtomicCondition ac
  | .Not c => "not " ++ displayCondition c
  | .Conjunction cs => String.intercalate " and " (displayConditionList cs)
  | .Disjunction cs => String.intercalate " or " (displayConditionList cs)
  | .Parentheses c => "(" ++ displayCondition c ++ ")"

/-- Display of each condition in a list. -/
def displayConditionList : List Condition → List String
  | [] => []
  | c :: cs => displayCondition c :: displayConditionList cs

/-- Display of an atomic condition (ast.rs, impl Display for AtomicCondition). -/
def displayAtomicCondition : AtomicCondition → String
  | .Primitive (.Var v) => v
  | .Compound c => displayCompound c
  | .SubCompound ns c => ns ++ "." ++ displayAtomicCondition c

/-- Display of a compound (ast.rs, impl Display for Compound). -/
def displayCompound : Compound → String
  | .mk rules al =>
    let rulesString := String.intercalate " " (displayRuleList rules)
    match al with
    | some a => "\x7b " ++ rulesString ++ " \x7d as " ++ a
    | none => "\x7b " ++ rulesString ++ " \x7d"

/-- Display of an action list (ast.rs, impl Display for ActionList).  Note the
source joins Alternative with the separator "alt " that lacks a leading
space. -/
def displayActionList : ActionList → String
  | .Sequence l => String.intercalate "; " (displayActions l)
  | .Parallel l => String.intercalate ", " (displayActions l)
  | .Alternative l => String.intercalate "alt " (displayActions l)

/-- Display of each action in a list. -/
def displayActions : List Action → List String
  | [] => []
  | a :: l => displayAction a :: displayActions l

/-- Display of a primitive event (ast.rs, impl Display for PrimitiveEvent). -/
def displayPrimitiveEvent : PrimitiveEvent → String
  | .Trigger id => "#" ++ id
  | .Production c => "+" ++ displayAtomicCondition c
  | .Consumption c => "-" ++ displayAtomicCondition c

/-- Display of an action (ast.rs, impl Display for Action). -/
def displayAction : Action → String
  | .Primitive e => displayPrimitiveEvent e
  | .List l => displayActionList l

/-- Display of a reactive rule (ast.rs, impl Display for ReactiveRule). -/
def displayReactiveRule : ReactiveRule → String
  | .ECA e (some c) a =>
      displayPrimitiveEvent e ++ ": " ++ displayCondition c ++ " => " ++
        displayAction a ++ "."
  | .ECA e none a =>
      displayPrimitiveEvent e ++ " => " ++ displayAction a ++ "."
  | .CA c a => ":" ++ displayCondition c ++ " => " ++ displayAction a ++ "."

/-- Display of a declarative rule (ast.rs, impl Display for DeclarativeRule).
Note that the source renders BOTH the CC and the CT variant with the
arrow "->": the CT branch writes "-> " as well, not "-o ". -/
def displayDeclarativeRule : DeclarativeRule → String
  | .CC (some c) cond => displayCondition c ++ " -> " ++ displayAtomicCondition cond ++ "."
  | .CC none cond => "-> " ++ displayAtomicCondition cond ++ "."
  | .CT (some p) cond => displayCondition p ++ " -> " ++ displayCondition cond ++ "."
  | .CT none cond => "-> " ++ displayCondition cond ++ "."

/-- Display of a rule (ast.rs, impl Display for Rule). -/
def displayRule : Rule → String
  | .Reactive r => displayReactiveRule r
  | .Declarative d => displayDeclarativeRule d
  | .Case (.mk a) => "=> " ++ displayAction a ++ "."
  | .Fact (.mk c) => displayAtomicCondition c ++ "."

/-- Display of each rule in a list. -/
def displayRuleList : List Rule → List String
  | [] => []
  | r :: rs => displayRule r :: displayRuleList rs

end

/-- Identifier of a primitive event (ast.rs, PrimitiveEvent::get_identifier):
the trigger name, or the Display rendering of the produced or consumed
atomic condition. -/
def PrimitiveEvent.getIdentifier : PrimitiveEvent → String
  | .Trigger id => id
  | .Production c => displayAtomicCondition c
  | .Consumption c => displayAtomicCondition c

/-- Identifier of a reactive rule (ast.rs, ReactiveRule::get_identifier): the
event identifier for ECA, the empty string for CA. -/
def ReactiveRule.getIdentifier : ReactiveRule → String
  | .ECA e _ _ => e.getIdentifier
  | .CA _ _ => ""

/-- Tokens of the surface language (token.rs; the variants EndRule, Number and
At are referenced by lexer.rs and parser.rs). -/
inductive Token : Type where
  | Hash : Token
  | Colon : Token
  | Semicolon : Token
  | Seq : Token
  | Par : Token
  | Alt : Token
  | LeftParenthesis : Token
  | RightParenthesis : Token
  | LeftCBracket : Token
  | RightCBracket : Token
  | Comma : Token
  | And : Token
  | Or : Token
  | Not : Token
  | Plus : Token
  | Minus : Token
  | Dot : Token
  | EndRule : Token
  | DashO : Token
  | FatArrow : Token
  | ThinArrow : Token
  | As : Token
  | At : Token
  | Descriptor : String → Token
  | Number : Nat → Token
deriving DecidableEq, Repr

/-- The opening curly brace character. -/
def braceOpen : Char := Char.ofNat 123

/-- The closing curly brace character. -/
def braceClose : Char := Char.ofNat 125

/-- Rust char::is_alphanumeric, modelled on the ASCII range that the rest of
the lexer (whose identifiers are ASCII-only) operates on. -/
def rustIsAlphanumeric (c : Char) : Bool := c.isAlphanum

/-- The context-sensitive dot of lexer.rs (dot_or_endrule, lines 25-31): a dot
is peeked together with the following character (if any); it becomes the
qualified-name Dot when that character is alphanumeric or an opening curly
brace, and EndRule in every other case (including whitespace, end of input,
and every other symbol). -/
def dotOrEndruleToken : Option Char → Token
  | some c => if rustIsAlphanumeric c || c = braceOpen then Token.Dot else Token.EndRule
  | none => Token.EndRule

/-- Start character of a chumsky text::ascii::ident identifier. -/
def isIdentStart (c : Char) : Bool := c.isAlpha || c = '_'

/-- Continuation character of a chumsky text::ascii::ident identifier. -/
def isIdentCont (c : Char) : Bool := c.isAlphanum || c = '_'

/-- Keyword mapping of lexer.rs: reserved words become keyword tokens, any
other identifier becomes a Descriptor. -/
def identToken (s : String) : Token :=
  if s = "seq" then Token.Seq
  else if s = "par" then Token.Par
  else if s = "alt" then Token.Alt
  else if s = "and" then Token.And
  else if s = "or" then Token.Or
  else if s = "not" then Token.Not
  else if s = "as" then Token.As
  else Token.Descriptor s

/-- Split off the longest prefix satisfying a predicate. -/
def spanChars (p : Char → Bool) : List Char → List Char × List Char
  | [] => ([], [])
  | c :: cs =>
    if p c then
      let (a, b) := spanChars p cs
      (c :: a, b)
    else ([], c :: cs)

/-- Numeric value of a run of ASCII digits. -/
def digitsToNat (cs : List Char) : Nat :=
  cs.foldl (fun acc c => acc * 10 + (c.toNat - 48)) 0

/-- Drop the remainder of a percent line comment, keeping the newline (the
chumsky comment parser stops before it; the newline is then consumed as
padding). -/
def dropLineComment : List Char → List Char
  | [] => []
  | c :: cs => if c = '\n' then c :: cs else dropLineComment cs

/-- The lexer of lexer.rs as a single fuelled loop over the character list.
Alternatives are tried in the source order: multi-character symbols, the
context-sensitive dot, single-character symbols, numbers, identifiers.
Whitespace and percent comments are padding.  A character no alternative
accepts, or a numeric literal that overflows u8, follows the error-recovery
of the source (skip one character, then retry).  Each iteration consumes at
least one character, so fuel length + 1 runs the loop to completion. -/
def lexLoop : Nat → List Char → List Token
  | 0, _ => []
  | _, [] => []
  | fuel + 1, c :: cs =>
    if c.isWhitespace then lexLoop fuel cs
    else if c = '%' then lexLoop fuel (dropLineComment cs)
    else if c = '=' then
      match cs with
      | '>' :: rest => Token.FatArrow :: lexLoop fuel rest
      | _ => lexLoop fuel cs
    else if c = '-' then
      match cs with
      | '>' :: rest => Token.ThinArrow :: lexLoop fuel rest
      | 'o' :: rest => Token.DashO :: lexLoop fuel rest
      | _ => Token.Minus :: lexLoop fuel cs
    else if c = '.' then dotOrEndruleToken cs.head? :: lexLoop fuel cs
    else if c = '#' then Token.Hash :: lexLoop fuel cs
    else if c = ':' then Token.Colon :: lexLoop fuel cs
    else if c = ';' then Token.Semicolon :: lexLoop fuel cs
    else if c = '+' then Token.Plus :: lexLoop fuel cs
    else if c = '(' then Token.LeftParenthesis :: lexLoop fuel cs
    else if c = ')' then Token.RightParenthesis :: lexLoop fuel cs
    else if c = braceOpen then Token.LeftCBracket :: lexLoop fuel cs
    else if c = braceClose then Token.RightCBracket :: lexLoop fuel cs
    else if c = ',' then Token.Comma :: lexLoop fuel cs
    else if c = '@' then Token.At :: lexLoop fuel cs
    else if c.isDigit then
      let (digits, rest) := spanChars Char.isDigit (c :: cs)
      let n := digitsToNat digits
      if n ≤ 255 then Token.Number n :: lexLoop fuel rest
      else lexLoop fuel cs
    else if isIdentStart c then
      let (ident, rest) := spanChars isIdentCont (c :: cs)
      identToken (String.mk ident) :: lexLoop fuel rest
    else lexLoop fuel cs

/-- Lex a string into tokens. -/
def lexString (s : String) : List Token :=
  lexLoop (s.length + 1) s.data

/-- A backtracking parser over a token list: on success, the parsed value and
the remaining input; on failure, none (the input is rewound by the caller,
mirroring chumsky choice). -/
abbrev P (α : Type) : Type := List Token → Option (α × List Token)

/-- Accept exactly the given token. -/
def pTok (t : Token) : P Unit := fun ts =>
  match ts with
  | t2 :: rest => if t2 = t then some ((), rest) else none
  | [] => none

/-- Accept any Descriptor token, yielding its name. -/
def pDescriptor : P String := fun ts =>
  match ts with
  | Token.Descriptor s :: rest => some (s, rest)
  | _ => none

/-- Ordered choice with rewind (chumsky Parser::or). -/
def pOr (p q : P α) : P α := fun ts =>
  match p ts with
  | some r => some r
  | none => q ts

/-- Optional parser (chumsky Parser::or_not). -/
def pOrNot (p : P α) : P (Option α) := fun ts =>
  match p ts with
  | some (a, r) => some (some a, r)
  | none => some (none, ts)

/-- Zero-or-more repetition (chumsky repeated().collect()), fuelled. -/
def pRepeated (fuel : Nat) (p : P α) : P (List α) := fun ts =>
  match fuel with
  | 0 => some ([], ts)
  | f + 1 =>
    match p ts with
    | some (a, ts2) =>
      match pRepeated f p ts2 with
      | some (l, ts3) => some (a :: l, ts3)
      | none => none
    | none => some ([], ts)

/-- Continuation loop of separated_by: try separator-then-element pairs,
rewinding and stopping at the first failed attempt. -/
def pSepAux (fuel : Nat) (p : P α) (sep : P Unit) (acc : List α) : P (List α) := fun ts =>
  match fuel with
  | 0 => some (acc.reverse, ts)
  | f + 1 =>
    match (do
      let (_, ts1) ← sep ts
      let (a, ts2) ← p ts1
      some ((a : α), ts2)) with
    | some (a, ts2) => pSepAux f p sep (a :: acc) ts2
    | none => some (acc.reverse, ts)

/-- One-or-more elements separated by sep (chumsky
separated_by(sep).at_least(1)), optionally allowing one trailing
separator (allow_trailing). -/
def pSepBy1 (fuel : Nat) (p : P α) (sep : P Unit) (allowTrailing : Bool) : P (List α) := fun ts => do
  let (a, ts) ← p ts
  let (l, ts) ← pSepAux fuel p sep [a] ts
  if allowTrailing then
    match sep ts with
    | some (_, ts2) => some (l, ts2)
    | none => some (l, ts)
  else
    some (l, ts)

/-- Iterated application of Condition.Not, used to fold the collected run of
not keywords. -/
def applyNots : Nat → Condition → Condition
  | 0, c => c
  | n + 1, c => Condition.Not (applyNots n c)

mutual

/-- parser.rs rule parser: reactive, or declarative, or case, or fact. -/
def parseRuleF : Nat → P Rule
  | 0 => fun _ => none
  | fuel + 1 =>
    pOr (parseReactiveF fuel)
      (pOr (parseDeclarativeF fuel) (pOr (parseCaseF fuel) (parseFactF fuel)))

/-- parser.rs reactive rule: ECA or CA. -/
def parseReactiveF : Nat → P Rule
  | 0 => fun _ => none
  | fuel + 1 => pOr (parseEcaF fuel) (parseCaF fuel)

/-- parser.rs ECA rule: primitive event, optional colon-condition, fat arrow,
action, end of rule. -/
def parseEcaF : Nat → P Rule
  | 0 => fun _ => none
  | fuel + 1 => fun ts => do
    let (ev, ts) ← parsePrimitiveEventF fuel ts
    let (cond, ts) ← pOrNot (fun ts => do
      let (_, ts) ← pTok Token.Colon ts
      parseConditionF fuel ts) ts
    let (_, ts) ← pTok Token.FatArrow ts
    let (act, ts) ← parseActionF fuel ts
    let (_, ts) ← pTok Token.EndRule ts
    some (Rule.Reactive (ReactiveRule.ECA ev cond act), ts)

/-- parser.rs CA rule: colon, condition, fat arrow, action, end of rule. -/
def parseCaF : Nat → P Rule
  | 0 => fun _ => none
  | fuel + 1 => fun ts => do
    let (_, ts) ← pTok Token.Colon ts
    let (cond, ts) ← parseConditionF fuel ts
    let (_, ts) ← pTok Token.FatArrow ts
    let (act, ts) ← parseActionF fuel ts
    let (_, ts) ← pTok Token.EndRule ts
    some (Rule.Reactive (ReactiveRule.CA cond act), ts)

/-- parser.rs declarative rule: CC or CT. -/
def parseDeclarativeF : Nat → P Rule
  | 0 => fun _ => none
  | fuel + 1 => pOr (parseCcF fuel) (parseCtF fuel)

/-- parser.rs CC rule: optional premise, thin arrow, atomic condition, end of
rule. -/
def parseCcF : Nat → P Rule
  | 0 => fun _ => none
  | fuel + 1 => fun ts => do
    let (premise, ts) ← pOrNot (parseConditionF fuel) ts
    let (_, ts) ← pTok Token.ThinArrow ts
    let (cond, ts) ← parseAtomicConditionF fuel ts
    let (_, ts) ← pTok Token.EndRule ts
    some (Rule.Declarative (DeclarativeRule.CC premise cond), ts)

/-- parser.rs CT rule: optional premise, dash-o, condition, end of rule. -/
def parseCtF : Nat → P Rule
  | 0 => fun _ => none
  | fuel + 1 => fun ts => do
    let (premise, ts) ← pOrNot (parseConditionF fuel) ts
    let (_, ts) ← pTok Token.DashO ts
    let (cond, ts) ← parseConditionF fuel ts
    let (_, ts) ← pTok Token.EndRule ts
    some (Rule.Declarative (DeclarativeRule.CT premise cond), ts)

/-- parser.rs case rule: fat arrow, action, end of rule. -/
def parseCaseF : Nat → P Rule
  | 0 => fun _ => none
  | fuel + 1 => fun ts => do
    let (_, ts) ← pTok Token.FatArrow ts
    let (act, ts) ← parseActionF fuel ts
    let (_, ts) ← pTok Token.EndRule ts
    some (Rule.Case (CaseRule.mk act), ts)

/-- parser.rs fact rule: atomic condition, end of rule. -/
def parseFactF : Nat → P Rule
  | 0 => fun _ => none
  | fuel + 1 => fun ts => do
    let (cond, ts) ← parseAtomicConditionF fuel ts
    let (_, ts) ← pTok Token.EndRule ts
    some (Rule.Fact (FactRule.mk cond), ts)

/-- parser.rs compound: braces around repeated rules, then an optional
as-alias. -/
def parseCompoundF : Nat → P Compound
  | 0 => fun _ => none
  | fuel + 1 => fun ts => do
    let (_, ts) ← pTok Token.LeftCBracket ts
    let (rules, ts) ← pRepeated fuel (parseRuleF fuel) ts
    let (_, ts) ← pTok Token.RightCBracket ts
    let (al, ts) ← pOrNot (fun ts => do
      let (_, ts) ← pTok Token.As ts
      pDescriptor ts) ts
    some (Compound.mk rules al, ts)

/-- parser.rs atomic condition: sub-compound, or primitive, or compound. -/
def parseAtomicConditionF : Nat → P AtomicCondition
  | 0 => fun _ => none
  | fuel + 1 =>
    pOr (fun ts => do
        let (ns, ts) ← pDescriptor ts
        let (_, ts) ← pTok Token.Dot ts
        let (ac, ts) ← parseAtomicConditionF fuel ts
        some (AtomicCondition.SubCompound ns ac, ts))
      (pOr (fun ts => do
          let (v, ts) ← pDescriptor ts
          some (AtomicCondition.Primitive (PrimitiveCondition.Var v), ts))
        (fun ts => do
          let (c, ts) ← parseCompoundF fuel ts
          some (AtomicCondition.Compound c, ts)))

/-- parser.rs condition, disjunction level: conjunctions separated by or or
semicolon; a single element stays as it is. -/
def parseConditionF : Nat → P Condition
  | 0 => fun _ => none
  | fuel + 1 => fun ts => do
    let (conds, ts) ←
      pSepBy1 fuel (parseAndF fuel) (pOr (pTok Token.Or) (pTok Token.Semicolon)) false ts
    match conds with
    | [c] => some (c, ts)
    | cs => some (Condition.Disjunction cs, ts)

/-- parser.rs condition, conjunction level: negations separated by and or
comma; a single element stays as it is. -/
def parseAndF : Nat → P Condition
  | 0 => fun _ => none
  | fuel + 1 => fun ts => do
    let (conds, ts) ←
      pSepBy1 fuel (parseNotF fuel) (pOr (pTok Token.And) (pTok Token.Comma)) false ts
    match conds with
    | [c] => some (c, ts)
    | cs => some (Condition.Conjunction cs, ts)

/-- parser.rs condition, negation level: a run of not keywords folded over a
primary condition. -/
def parseNotF : Nat → P Condition
  | 0 => fun _ => none
  | fuel + 1 => fun ts => do
    let (nots, ts) ← pRepeated fuel (pTok Token.Not) ts
    let (c, ts) ← parsePrimaryF fuel ts
    some (applyNots nots.length c, ts)

/-- parser.rs condition, primary level: an atomic condition, or a
parenthesized condition. -/
def parsePrimaryF : Nat → P Condition
  | 0 => fun _ => none
  | fuel + 1 =>
    pOr (fun ts => do
        let (ac, ts) ← parseAtomicConditionF fuel ts
        some (Condition.Atomic ac, ts))
      (fun ts => do
        let (_, ts) ← pTok Token.LeftParenthesis ts
        let (c, ts) ← parseConditionF fuel ts
        let (_, ts) ← pTok Token.RightParenthesis ts
        some (Condition.Parentheses c, ts))

/-- parser.rs primitive event: trigger, or production, or consumption. -/
def parsePrimitiveEventF : Nat → P PrimitiveEvent
  | 0 => fun _ => none
  | fuel + 1 =>
    pOr (fun ts => do
        let (_, ts) ← pTok Token.Hash ts
        let (name, ts) ← pDescriptor ts
        some (PrimitiveEvent.Trigger name, ts))
      (pOr (fun ts => do
          let (_, ts) ← pTok Token.Plus ts
          let (ac, ts) ← parseAtomicConditionF fuel ts
          some (PrimitiveEvent.Production ac, ts))
        (fun ts => do
          let (_, ts) ← pTok Token.Minus ts
          let (ac, ts) ← parseAtomicConditionF fuel ts
          some (PrimitiveEvent.Consumption ac, ts)))

/-- parser.rs action entry point: the sequence level. -/
def parseActionF : Nat → P Action
  | 0 => fun _ => none
  | fuel + 1 => parseSequenceF fuel

/-- parser.rs action, sequence level: alternatives separated by semicolon or
seq, trailing separator allowed; a single element stays as it is. -/
def parseSequenceF : Nat → P Action
  | 0 => fun _ => none
  | fuel + 1 => fun ts => do
    let (acts, ts) ←
      pSepBy1 fuel (parseAlternativeF fuel)
        (pOr (pTok Token.Semicolon) (pTok Token.Seq)) true ts
    match acts with
    | [a] => some (a, ts)
    | l => some (Action.List (ActionList.Sequence l), ts)

/-- parser.rs action, alternative level: parallels separated by alt, trailing
separator allowed; a single element stays as it is. -/
def parseAlternativeF : Nat → P Action
  | 0 => fun _ => none
  | fuel + 1 => fun ts => do
    let (acts, ts) ← pSepBy1 fuel (parseParallelF fuel) (pTok Token.Alt) true ts
    match acts with
    | [a] => some (a, ts)
    | l => some (Action.List (ActionList.Alternative l), ts)

/-- parser.rs action, parallel level: primitive-event actions separated by
comma or par, trailing separator allowed; a single element stays as it is. -/
def parseParallelF : Nat → P Action
  | 0 => fun _ => none
  | fuel + 1 => fun ts => do
    let (acts, ts) ←
      pSepBy1 fuel (parsePrimActionF fuel)
        (pOr (pTok Token.Comma) (pTok Token.Par)) true ts
    match acts with
    | [a] => some (a, ts)
    | l => some (Action.List (ActionList.Parallel l), ts)

/-- parser.rs primitive-event action. -/
def parsePrimActionF : Nat → P Action
  | 0 => fun _ => none
  | fuel + 1 => fun ts => do
    let (pe, ts) ← parsePrimitiveEventF fuel ts
    some (Action.Primitive pe, ts)

end

/-- Run the rule parser on a token list, requiring the whole input to be
consumed, exactly as chumsky Parser::parse does for rule_parser(). -/
def parseRuleTokens (ts : List Token) : Option Rule :=
  match parseRuleF (ts.length + 100) ts with
  | some (r, []) => some r
  | _ => none

/-- Lex and parse one rule from a string. -/
def parseRuleString (s : String) : Option Rule :=
  parseRuleTokens (lexString s)

/-- Outcome of a Rust call that can either return Err or panic; the two exits
are kept distinct. -/
inductive RError : Type where
  | err : String → RError
  | panicked : String → RError
deriving DecidableEq, Repr

/-- Result of a fallible node operation. -/
abbrev RResult (α : Type) : Type := Except RError α

/-- A reactive rule with its activation value and optional alias path
(types.rs, ReactiveRuleWithArgs; the alias field is named aliasPath here). -/
structure ReactiveRuleWithArgs where
  rule : ReactiveRule
  value : ActivationStatus
  aliasPath : Option (List String)

/-- A fact rule with an optional value (types.rs, FactRuleWithArgs). -/
structure FactRuleWithArgs where
  rule : FactRule
  value : Option ActivationStatus

/-- A rule with extra arguments (types.rs, RuleWithArgs). -/
inductive RuleWithArgs : Type where
  | Declarative : DeclarativeRule → RuleWithArgs
  | Case : CaseRule → RuleWithArgs
  | Fact : FactRuleWithArgs → RuleWithArgs
  | Reactive : ReactiveRuleWithArgs → RuleWithArgs

/-- Find the value of a key in an association list (a DashMap is modelled as
an association list with unique keys). -/
def lookupAssoc [DecidableEq κ] : List (κ × α) → κ → Option α
  | [], _ => none
  | (k2, v) :: rest, k => if k2 = k then some v else lookupAssoc rest k

/-- Insert or overwrite a key in an association list (DashMap insert). -/
def insertAssoc [DecidableEq κ] : List (κ × α) → κ → α → List (κ × α)
  | [], k, v => [(k, v)]
  | (k2, v2) :: rest, k, v =>
    if k2 = k then (k, v) :: rest else (k2, v2) :: insertAssoc rest k v

/-- Membership of a rule in a rule list under the structural equality of
ast.rs (Vec::contains). -/
def ruleListContains (l : List Rule) (r : Rule) : Bool :=
  l.any (fun r2 => beqRule r2 r)

/-- Alias namespace tree (utils.rs, AliasNamespace): child namespaces keyed by
segment name, plus the rules stored at this node. -/
inductive AliasNamespace : Type where
  | mk : List (String × AliasNamespace) → List Rule → AliasNamespace

/-- The child map of an alias namespace. -/
def AliasNamespace.subNamespaces : AliasNamespace → List (String × AliasNamespace)
  | .mk subs _ => subs

/-- The rules stored at an alias namespace node. -/
def AliasNamespace.storedRules : AliasNamespace → List Rule
  | .mk _ rs => rs

/-- A fresh, empty alias namespace (utils.rs, AliasNamespace::new). -/
def AliasNamespace.newNs : AliasNamespace := .mk [] []

/-- utils.rs AliasNamespace::get_rules: walk the path; an absent segment is an
error, the empty path returns this node's rules. -/
def AliasNamespace.getRules : AliasNamespace → List String → Except String (List Rule)
  | .mk _ rules, [] => .ok rules
  | .mk subs _, first :: rest =>
    match lookupAssoc subs first with
    | some child => child.getRules rest
    | none => .error ("No matching namespace for alias " ++ first)

/-- utils.rs create_rules union branch: push each new rule that is not already
present, preserving order. -/
def unionRules (old newRules : List Rule) : List Rule :=
  newRules.foldl
    (fun combined r => if ruleListContains combined r then combined else combined ++ [r])
    old

/-- utils.rs AliasNamespace::create_rules: create intermediate nodes as
needed; at the leaf either replace the rule list or union into it, and
report the previous rule list (none when it was empty).  The Rust signature
is fallible but no branch returns Err, so the model returns plainly. -/
def AliasNamespace.createRules :
    AliasNamespace → List String → List Rule → Bool → AliasNamespace × Option (List Rule)
  | .mk subs rules, [], newRules, overrideEntries =>
    let old := rules
    let updated := if overrideEntries then newRules else unionRules old newRules
    (.mk subs updated, if old.isEmpty then none else some old)
  | .mk subs rules, first :: rest, newRules, overrideEntries =>
    let child :=
      match lookupAssoc subs first with
      | some c => c
      | none => AliasNamespace.newNs
    let (child2, prev) := child.createRules rest newRules overrideEntries
    (.mk (insertAssoc subs first child2) rules, prev)

/-- Key of a handler's rule map (event_handler.rs, ReactiveRuleKey): the rule
together with its optional alias path. -/
abbrev ReactiveRuleKey : Type := ReactiveRule × Option (List String)

/-- Equality of handler keys, as the derived PartialEq of event_handler.rs. -/
def beqReactiveRuleKey (a b : ReactiveRuleKey) : Bool :=
  beqReactiveRule a.1 b.1 && a.2 == b.2

/-- An event handler (event_handler.rs, EventHandler): its identifier and its
rule map. -/
structure Handler where
  id : String
  rules : List (ReactiveRuleKey × ActivationStatus)

/-- Insert or overwrite an entry of a handler's rule map (the new_rule
route). -/
def insertHandlerRule :
    List (ReactiveRuleKey × ActivationStatus) → ReactiveRuleKey → ActivationStatus →
    List (ReactiveRuleKey × ActivationStatus)
  | [], k, v => [(k, v)]
  | (k2, v2) :: rest, k, v =>
    if beqReactiveRuleKey k2 k then (k, v) :: rest
    else (k2, v2) :: insertHandlerRule rest k v

/-- The node's mutable state (node.rs, Node): the variable store, the alias
tree roots keyed by top-level segment, and the handler registry keyed by
event identifier. -/
structure NodeState where
  vars : List (PrimitiveCondition × ActivationStatus)
  aliases : List (String × AliasNamespace)
  handlers : List (String × Handler)

/-- A node with no state, as built by Node::new_with_rules(None). -/
def emptyState : NodeState := NodeState.mk [] [] []

/-- utils.rs overall_status_from_set: any Unknown (Conflict) is an error;
otherwise False dominates True; an empty collection is an error.  The Rust
argument is a DashSet, but only membership is consulted, so a list of the
collected statuses is an equivalent argument. -/
def overallStatusFromSet (statuses : List ActivationStatus) : Except String ActivationStatus :=
  if statuses.contains ActivationStatus.Conflict then
    .error "Overall status is unknown due to at least one Unknown value"
  else if statuses.contains ActivationStatus.False then .ok ActivationStatus.False
  else if statuses.contains ActivationStatus.True then .ok ActivationStatus.True
  else .error "No valid status found"

/-- node.rs Node::update_var: reject Conflict with an error (leaving the store
untouched), otherwise insert the variable atomically. -/
def updateVar (s : NodeState) (var : PrimitiveCondition) (value : ActivationStatus) :
    NodeState × Except String Bool :=
  if value = ActivationStatus.Conflict then
    (s, .error "Cannot update variable to Unknown")
  else
    (NodeState.mk (insertAssoc s.vars var value) s.aliases s.handlers, .ok true)

/-- node.rs store_atomic_condition, rule-conversion match (lines 620-637):
reactive and fact rules become rules-with-args carrying the stored value and
namespace copy, case rules are dropped (deferred to the caller), and any
other rule kind — a declarative rule — hits the panicking arm instead of an
error return. -/
def convertCompoundRules (rules : List Rule) (value : ActivationStatus)
    (nsCopy : Option (List String)) : RResult (List RuleWithArgs) :=
  match rules with
  | [] => .ok []
  | Rule.Reactive rr :: rest =>
    (convertCompoundRules rest value nsCopy).map
      (fun l => RuleWithArgs.Reactive (ReactiveRuleWithArgs.mk rr value nsCopy) :: l)
  | Rule.Fact fr :: rest =>
    (convertCompoundRules rest value nsCopy).map
      (fun l => RuleWithArgs.Fact (FactRuleWithArgs.mk fr (some value)) :: l)
  | Rule.Case _ :: rest => convertCompoundRules rest value nsCopy
  | Rule.Declarative _ :: _ =>
    .error (RError.panicked "Unsupported rule type in compound condition")

/-- node.rs store_atomic_condition, rule-processing loop (lines 640-650): run
the per-rule processor over each converted rule, and-ing the successes and
aborting on the first error (the state mutated so far persists). -/
def processRulesWith (pr : NodeState → RuleWithArgs → NodeState × RResult Bool) :
    NodeState → List RuleWithArgs → Bool → NodeState × RResult Bool
  | s, [], acc => (s, .ok acc)
  | s, r :: rest, acc =>
    match pr s r with
    | (s2, .ok res) => processRulesWith pr s2 rest (acc && res)
    | (s2, .error e) => (s2, .error e)

/-- The target namespace path of a compound: the supplied namespace (or the
empty path) with the compound's alias appended, as computed identically in
store_atomic_condition and get_atomic_condition. -/
def targetNamespace (varNamespace : Option (List String)) (al : Option String) : List String :=
  let n0 := match varNamespace with
    | some ns => ns
    | none => []
  match al with
  | some a => n0 ++ [a]
  | none => n0

/-- node.rs store_atomic_condition, namespace installation (lines 589-616):
fetch or create the root alias for the head segment, then create_rules on
the remaining path.  Only the alias tree changes. -/
def installCompoundNamespace (s : NodeState) (firstAlias : String) (restNs : List String)
    (rules : List Rule) (overrideEntries : Bool) : NodeState :=
  let childNs :=
    match lookupAssoc s.aliases firstAlias with
    | some c => c
    | none => AliasNamespace.newNs
  let (childNs2, _prevRules) := childNs.createRules restNs rules overrideEntries
  NodeState.mk s.vars (insertAssoc s.aliases firstAlias childNs2) s.handlers

/-- node.rs Node::store_atomic_condition (lines 551-671).  The per-rule
processing that re-enters process_rule through the node is taken as the
function argument pr.  A primitive updates the variable store; a compound
installs its rules under the target namespace (when non-empty), converts
them (possibly panicking on a declarative rule) and processes them; a
sub-compound prepends its segment to the namespace and recurses with the
hard-coded status ActivationStatus.False of source line 667 — not with the
caller's value. -/
def storeAtomicCondition (pr : NodeState → RuleWithArgs → NodeState × RResult Bool) :
    NodeState → AtomicCondition → ActivationStatus → Option (List String) → Bool →
    NodeState × RResult Bool
  | s, .Primitive primCond, value, _, _ =>
    let (s2, r) := updateVar s primCond value
    (s2, r.mapError RError.err)
  | s, .Compound (.mk rules al), value, varNamespace, overrideEntries =>
    let n := targetNamespace varNamespace al
    let varNamespaceCopy := if n.length > 0 then some n else none
    let s2 :=
      match n with
      | [] => s
      | firstAlias :: restNs =>
        installCompoundNamespace s firstAlias restNs rules overrideEntries
    match convertCompoundRules rules value varNamespaceCopy with
    | .error e => (s2, .error e)
    | .ok rulesWithArgs => processRulesWith pr s2 rulesWithArgs true
  | s, .SubCompound ns cond, _value, varNamespace, overrideEntries =>
    let n :=
      match varNamespace with
      | some nsp => ns :: nsp
      | none => [ns]
    storeAtomicCondition pr s cond ActivationStatus.False (some n) overrideEntries

/-- The handler's get_rules route with all = true (event_handler.rs lines
109-127): every entry of the rule map as a ReactiveRuleWithArgs. -/
def handlerGetRulesAll (h : Handler) : List ReactiveRuleWithArgs :=
  h.rules.map (fun e => ReactiveRuleWithArgs.mk e.1.1 e.2 e.1.2)

/-- Search loop of node.rs get_rule_status (lines 818-833): the first entry
whose rule and alias both match yields its value; otherwise an error. -/
def findRuleValue :
    List ReactiveRuleWithArgs → ReactiveRuleWithArgs → String → Except String ActivationStatus
  | [], rule, handlerId =>
    .error ("Rule " ++ rule.rule.getIdentifier ++ " not found in handler " ++ handlerId)
  | r :: rest, rule, handlerId =>
    if beqReactiveRule r.rule rule.rule && r.aliasPath == rule.aliasPath then .ok r.value
    else findRuleValue rest rule handlerId

/-- node.rs Node::get_rule_status (lines 791-835): look the handler up by the
rule's identifier, fetch all its rules, and search for the matching entry. -/
def getRuleStatus (s : NodeState) (rule : ReactiveRuleWithArgs) :
    Except String ActivationStatus :=
  let handlerId := rule.rule.getIdentifier
  match lookupAssoc s.handlers handlerId with
  | none => .error ("Handler for rule " ++ handlerId ++ " not found")
  | some handler => findRuleValue (handlerGetRulesAll handler) rule handlerId

/-- Status-collection loop of node.rs get_atomic_condition (lines 746-763):
for each matching reactive rule, look its stored status up (propagating
errors); other rule kinds are skipped.  The statuses land in a DashSet in
the source, but the aggregator only tests membership, so the collected list
is an equivalent representation. -/
def collectStatuses (s : NodeState) (nsCopy : Option (List String)) :
    List Rule → Except String (List ActivationStatus)
  | [] => .ok []
  | Rule.Reactive rr :: rest => do
    let st ← getRuleStatus s (ReactiveRuleWithArgs.mk rr ActivationStatus.True nsCopy)
    let restSt ← collectStatuses s nsCopy rest
    .ok (st :: restSt)
  | _ :: rest => collectStatuses s nsCopy rest

/-- node.rs Node::get_atomic_condition (lines 680-788).  A primitive reads the
variable store, with Conflict for a never-assigned variable; a compound
resolves the target namespace (an empty path and a missing root are
errors), intersects its rules with the stored ones, collects the stored
statuses of the matching reactive rules and aggregates them; a sub-compound
prepends its segment and recurses. -/
def getAtomicCondition (s : NodeState) :
    AtomicCondition → Option (List String) → Except String ActivationStatus
  | .Primitive primCond, _ =>
    match lookupAssoc s.vars primCond with
    | none => .ok ActivationStatus.Conflict
    | some v => .ok v
  | .Compound (.mk rules al), varNamespace =>
    let n := targetNamespace varNamespace al
    let varNamespaceCopy := if n.length > 0 then some n else none
    match n with
    | [] => .error "Cannot get rules from the main namespace"
    | firstAlias :: restNs =>
      match lookupAssoc s.aliases firstAlias with
      | none => .error ("No matching namespace found for alias: " ++ firstAlias)
      | some an =>
        match an.getRules restNs with
        | .error e => .error e
        | .ok prevRules =>
          let matchingRules := rules.filter (fun r => ruleListContains prevRules r)
          match collectStatuses s varNamespaceCopy matchingRules with
          | .error e => .error e
          | .ok statuses => overallStatusFromSet statuses
  | .SubCompound ns cond, varNamespace =>
    let n :=
      match varNamespace with
      | some nsp => ns :: nsp
      | none => [ns]
    getAtomicCondition s cond (some n)

/-- node.rs Node::process_rule (lines 862-931).  The action processing of case
rules and the condition storing of fact rules re-enter the evaluator; they
are taken as the function arguments pa and sac.  A reactive rule creates a
handler seeded with itself, or inserts into the existing handler; a case
rule runs its action; a fact rule stores its condition with the carried
value (defaulting to True for a primitive, False otherwise) under override;
any other rule — a declarative rule — falls to the final arm and returns
Ok(false) without touching the state. -/
def processRule (pa : NodeState → Action → NodeState × RResult Bool)
    (sac : NodeState → AtomicCondition → ActivationStatus → Option (List String) → Bool →
      NodeState × RResult Bool)
    (s : NodeState) (rwa : RuleWithArgs) : NodeState × RResult Bool :=
  match rwa with
  | RuleWithArgs.Reactive reactiveRule =>
    let handlerId := reactiveRule.rule.getIdentifier
    match lookupAssoc s.handlers handlerId with
    | none =>
      let newHandler := Handler.mk handlerId
        [((reactiveRule.rule, reactiveRule.aliasPath), reactiveRule.value)]
      (NodeState.mk s.vars s.aliases (insertAssoc s.handlers handlerId newHandler), .ok true)
    | some handler =>
      let handler2 := Handler.mk handler.id
        (insertHandlerRule handler.rules (reactiveRule.rule, reactiveRule.aliasPath)
          reactiveRule.value)
      (NodeState.mk s.vars s.aliases (insertAssoc s.handlers handlerId handler2), .ok true)
  | RuleWithArgs.Case (CaseRule.mk act) => pa s act
  | RuleWithArgs.Fact factRule =>
    match factRule.rule.condition with
    | AtomicCondition.Primitive _ =>
      sac s factRule.rule.condition (factRule.value.getD ActivationStatus.True) none true
    | _ =>
      sac s factRule.rule.condition (factRule.value.getD ActivationStatus.False) none true
  | RuleWithArgs.Declarative _ => (s, .ok false)

/-- node.rs new_rules route (lines 55-70): allocate the result vector, process
each rule in order propagating errors, and return the vector — to which no
element is ever pushed, so a successful call always returns the empty list.
The per-rule processor pr stands for Node::process_rule. -/
def newRulesRoute (pr : NodeState → RuleWithArgs → NodeState × RResult Bool)
    (s : NodeState) (rules : List RuleWithArgs) : NodeState × RResult (List Bool) :=
  match rules with
  | [] => (s, .ok [])
  | r :: rest =>
    match pr s r with
    | (s2, .ok _) => newRulesRoute pr s2 rest
    | (s2, .error e) => (s2, .error e)

/-- Decomposition of a reactive rule into its optional condition and its
action (event_handler.rs lines 158-165). -/
def decomposeReactiveRule : ReactiveRule → Option Condition × Action
  | .CA condition action => (some condition, action)
  | .ECA _ condition action => (condition, action)

/-- event_handler.rs EventHandler::process_rule_internal (lines 152-213): an
absent condition counts as true; a condition error yields false; when the
condition holds the action is fired as a case rule through the node's
new_rules route (argument nrc) and element 0 of the returned vector —
defaulting to false when absent — is the reported success; when the
condition does not hold the rule reports true.  The condition evaluator is
the argument pc. -/
def processRuleInternal (pc : Condition → Except String Bool)
    (nrc : List RuleWithArgs → RResult (List Bool)) (rule : ReactiveRule) : Bool :=
  let (condition, action) := decomposeReactiveRule rule
  let conditionResult :=
    match condition with
    | some c => pc c
    | none => Except.ok true
  match conditionResult with
  | .error _ => false
  | .ok result =>
    if result then
      match nrc [RuleWithArgs.Case (CaseRule.mk action)] with
      | .ok r => r.headD false
      | .error _ => false
    else true

/-- Loop of the handler's process_action route (event_handler.rs lines
77-105): walk the rule map, skipping exactly the entries whose value is
False, running process_rule_internal (argument pri) on every other entry —
True or Conflict alike — and and-ing the results into valid. -/
def processActionGo (pri : ReactiveRule → Bool) :
    List (ReactiveRuleKey × ActivationStatus) → Bool → Bool
  | [], valid => valid
  | (key, value) :: rest, valid =>
    if value = ActivationStatus.False then processActionGo pri rest valid
    else processActionGo pri rest (valid && pri key.1)

/-- The handler's process_action route: the loop started with valid = true. -/
def processActionRoute (pri : ReactiveRule → Bool)
    (rules : List (ReactiveRuleKey × ActivationStatus)) : Bool :=
  processActionGo pri rules true

/-- Modelled from the spec (claim C3 wording), for comparison with the code:
a process_action route that skips rules with status False AND rules with
status Conflict, evaluating only rules whose status is True. -/
def processActionClaimedGo (pri : ReactiveRule → Bool) :
    List (ReactiveRuleKey × ActivationStatus) → Bool → Bool
  | [], valid => valid
  | (key, value) :: rest, valid =>
    if value = ActivationStatus.False ∨ value = ActivationStatus.Conflict then
      processActionClaimedGo pri rest valid
    else processActionClaimedGo pri rest (valid && pri key.1)

/-- The claimed process_action route started with valid = true. -/
def processActionRouteClaimed (pri : ReactiveRule → Bool)
    (rules : List (ReactiveRuleKey × ActivationStatus)) : Bool :=
  processActionClaimedGo pri rules true

/-- The store invariant of claim C8: no entry of the variable store carries
Conflict. -/
def varsInv (s : NodeState) : Prop :=
  ∀ pv ∈ s.vars, pv.2 ≠ ActivationStatus.Conflict

/-- A concrete reactive rule used by several concrete scenarios below. -/
def ruleE : ReactiveRule :=
  ReactiveRule.ECA (PrimitiveEvent.Trigger "e") none
    (Action.Primitive (PrimitiveEvent.Trigger "a"))

/-- A node holding the alias r with the single reactive rule ruleE, whose
handler stores that rule with status Conflict. -/
def conflictHandlerState : NodeState :=
  NodeState.mk []
    [("r", AliasNamespace.mk [] [Rule.Reactive ruleE])]
    [("e", Handler.mk "e" [((ruleE, some ["r"]), ActivationStatus.Conflict)])]

/-- A node holding the alias r with the single reactive rule ruleE, whose
handler stores that rule with status True. -/
def trueHandlerState : NodeState :=
  NodeState.mk []
    [("r", AliasNamespace.mk [] [Rule.Reactive ruleE])]
    [("e", Handler.mk "e" [((ruleE, some ["r"]), ActivationStatus.True)])]

/-- The CT declarative rule with no premise over the plain variable c. -/
def ctRule : Rule :=
  Rule.Declarative (DeclarativeRule.CT none
    (Condition.Atomic (AtomicCondition.Primitive (PrimitiveCondition.Var "c"))))

/-- The CC declarative rule with no premise over the plain variable c. -/
def ccRule : Rule :=
  Rule.Declarative (DeclarativeRule.CC none
    (AtomicCondition.Primitive (PrimitiveCondition.Var "c")))

example : parseRuleString "#e: c => +a." =
    some (Rule.Reactive (ReactiveRule.ECA (PrimitiveEvent.Trigger "e")
      (some (Condition.Atomic (AtomicCondition.Primitive (PrimitiveCondition.Var "c"))))
      (Action.Primitive (PrimitiveEvent.Production
        (AtomicCondition.Primitive (PrimitiveCondition.Var "a")))))) := rfl

example : parseRuleString "-o c." = some ctRule := rfl

example : parseRuleString "-> c." = some ccRule := rfl

example : parseRuleString "e: c => +a." = none := rfl

example : parseRuleString "#e: +c => +a" = none := rfl

/-- Every element of an insertion is an old element or the inserted pair. -/
theorem mem_insertAssoc [DecidableEq κ] (l : List (κ × α)) (k : κ) (v : α) :
    ∀ p ∈ insertAssoc l k v, p ∈ l ∨ p = (k, v) := by
  induction l with
  | nil =>
    intro p hp
    simp only [insertAssoc, List.mem_singleton] at hp
    exact Or.inr hp
  | cons hd tl ih =>
    obtain ⟨k2, v2⟩ := hd
    intro p hp
    simp only [insertAssoc] at hp
    by_cases hk : k2 = k
    · rw [if_pos hk] at hp
      rcases List.mem_cons.mp hp with h | h
      · exact Or.inr h
      · exact Or.inl (List.mem_cons_of_mem _ h)
    · rw [if_neg hk] at hp
      rcases List.mem_cons.mp hp with h | h
      · exact Or.inl (List.mem_cons.mpr (Or.inl h))
      · rcases ih p h with h1 | h1
        · exact Or.inl (List.mem_cons_of_mem _ h1)
        · exact Or.inr h1

/-- update_var preserves the no-Conflict invariant of the variable store. -/
theorem varsInv_updateVar (s : NodeState) (var : PrimitiveCondition)
    (value : ActivationStatus) (h : varsInv s) : varsInv (updateVar s var value).1 := by
  unfold updateVar
  by_cases hv : value = ActivationStatus.Conflict
  · simpa [hv] using h
  · simp only [if_neg hv]
    intro pv hpv
    rcases mem_insertAssoc s.vars var value pv hpv with hmem | heq
    · exact h pv hmem
    · rw [heq]
      exact hv

/-- The rule-processing loop preserves the store invariant whenever the
per-rule processor does. -/
theorem varsInv_processRulesWith (pr : NodeState → RuleWithArgs → NodeState × RResult Bool)
    (hpr : ∀ s r, varsInv s → varsInv (pr s r).1) :
    ∀ (l : List RuleWithArgs) (s : NodeState) (acc : Bool), varsInv s →
      varsInv (processRulesWith pr s l acc).1 := by
  intro l
  induction l with
  | nil => intro s acc h; simpa [processRulesWith] using h
  | cons r rest ih =>
    intro s acc h
    simp only [processRulesWith]
    rcases hpres : pr s r with ⟨s2, res⟩
    have h2 : varsInv s2 := by
      have := hpr s r h
      rw [hpres] at this
      exact this
    cases res with
    | ok b => simpa using ih s2 (acc && b) h2
    | error e => simpa using h2

/-- Installing a compound's rules in the alias tree leaves the variable store
untouched. -/
theorem installCompoundNamespace_vars (s : NodeState) (f : String) (rest : List String)
    (rules : List Rule) (ov : Bool) :
    (installCompoundNamespace s f rest rules ov).vars = s.vars := by
  unfold installCompoundNamespace
  cases lookupAssoc s.aliases f <;> rfl

/-- store_atomic_condition preserves the no-Conflict invariant of the variable
store whenever the per-rule processor does: the only variable-store writes
go through update_var, which rejects Conflict. -/
theorem varsInv_storeAtomicCondition
    (pr : NodeState → RuleWithArgs → NodeState × RResult Bool)
    (hpr : ∀ s r, varsInv s → varsInv (pr s r).1) :
    ∀ (ac : AtomicCondition) (s : NodeState) (value : ActivationStatus)
      (nsp : Option (List String)) (ov : Bool), varsInv s →
      varsInv (storeAtomicCondition pr s ac value nsp ov).1
  | AtomicCondition.Primitive p, s, value, nsp, ov, h => by
    simp only [storeAtomicCondition]
    rcases hu : updateVar s p value with ⟨s2, r⟩
    have hinv := varsInv_updateVar s p value h
    rw [hu] at hinv
    cases r <;> simpa using hinv
  | AtomicCondition.Compound (Compound.mk rules al), s, value, nsp, ov, h => by
    simp only [storeAtomicCondition]
    have hs2 : ∀ (s2 : NodeState),
        s2 = (match targetNamespace nsp al with
          | [] => s
          | firstAlias :: restNs => installCompoundNamespace s firstAlias restNs rules ov) →
        varsInv s2 := by
      intro s2 hs2
      cases htn : targetNamespace nsp al with
      | nil => rw [htn] at hs2; simpa [hs2] using h
      | cons f r =>
        rw [htn] at hs2
        intro pv hpv
        rw [hs2, installCompoundNamespace_vars] at hpv
        exact h pv hpv
    cases hcv : convertCompoundRules rules value
        (if (targetNamespace nsp al).length > 0 then some (targetNamespace nsp al) else none) with
    | error e => simpa [hcv] using hs2 _ rfl
    | ok rwas =>
      simp only [hcv]
      exact varsInv_processRulesWith pr hpr rwas _ true (hs2 _ rfl)
  | AtomicCondition.SubCompound ns cond, s, value, nsp, ov, h => by
    simp only [storeAtomicCondition]
    cases nsp with
    | none =>
      exact varsInv_storeAtomicCondition pr hpr cond s ActivationStatus.False (some [ns]) ov h
    | some nsp2 =>
      exact varsInv_storeAtomicCondition pr hpr cond s ActivationStatus.False
        (some (ns :: nsp2)) ov h

/-- Claim C1 counterexample: get_atomic_condition is not error-free — reading
a compound whose target namespace path is empty returns the error
"Cannot get rules from the main namespace" rather than a status. -/
theorem C1_counterexample :
    getAtomicCondition emptyState (AtomicCondition.Compound (Compound.mk [] none)) none =
      Except.error "Cannot get rules from the main namespace" := rfl

/-- Claim C1 as amended: for every PRIMITIVE atomic condition and every
namespace path, get_atomic_condition returns Ok with one of the three
activation statuses and never an error; compound and sub-compound
evaluation, by contrast, can return errors. -/
theorem C1_primitive_totality :
    ∀ (s : NodeState) (p : PrimitiveCondition) (nsp : Option (List String)),
      ∃ v : ActivationStatus,
        getAtomicCondition s (AtomicCondition.Primitive p) nsp = Except.ok v := by
  intro s p nsp
  simp only [getAtomicCondition]
  rcases h : lookupAssoc s.vars p with _ | v
  · exact ⟨ActivationStatus.Conflict, rfl⟩
  · exact ⟨v, rfl⟩

/-- Claim C2 counterexample: in a node whose alias r stores ruleE and whose
handler holds that rule with status Conflict, evaluating the compound
produces an ERROR — not the status Conflict the claim promises. -/
theorem C2_counterexample :
    getAtomicCondition conflictHandlerState
        (AtomicCondition.Compound (Compound.mk [Rule.Reactive ruleE] (some "r"))) none =
      Except.error "Overall status is unknown due to at least one Unknown value" := rfl

/-- The case analysis of overall_status_from_set under the membership of each
status, used to discharge the aggregation claim below. -/
theorem overallStatusFromSet_cases (l : List ActivationStatus) :
    (ActivationStatus.Conflict ∈ l →
      overallStatusFromSet l =
        Except.error "Overall status is unknown due to at least one Unknown value") ∧
    (ActivationStatus.Conflict ∉ l → ActivationStatus.False ∈ l →
      overallStatusFromSet l = Except.ok ActivationStatus.False) ∧
    (ActivationStatus.Conflict ∉ l → ActivationStatus.False ∉ l →
      ActivationStatus.True ∈ l →
      overallStatusFromSet l = Except.ok ActivationStatus.True) ∧
    (l = [] → overallStatusFromSet l = Except.error "No valid status found") := by
  refine ⟨?_, ?_, ?_, ?_⟩
  · intro hc
    simp [overallStatusFromSet, hc]
  · intro hc hf
    simp [overallStatusFromSet, hc, hf]
  · intro hc hf ht
    simp [overallStatusFromSet, hc, hf, ht]
  · intro he
    simp [overallStatusFromSet, he]

/-- Claim C2 as amended: when get_atomic_condition evaluates a compound whose
target namespace path is non-empty and resolvable, and the stored statuses
of the matching reactive rules are collected as statuses, it aggregates
them as follows — if any status is Conflict it returns an ERROR (not the
status Conflict); otherwise if any status is False the result is False;
otherwise, if at least one status was collected, the result is True; and if
no reactive-rule status was collected it returns an error rather than
True. -/
theorem C2_aggregation_amended :
    ∀ (s : NodeState) (rules : List Rule) (al : Option String) (nsp : Option (List String))
      (firstAlias : String) (restNs : List String) (an : AliasNamespace)
      (prevRules : List Rule) (statuses : List ActivationStatus),
      targetNamespace nsp al = firstAlias :: restNs →
      lookupAssoc s.aliases firstAlias = some an →
      an.getRules restNs = Except.ok prevRules →
      collectStatuses s (some (firstAlias :: restNs))
        (rules.filter (fun r => ruleListContains prevRules r)) = Except.ok statuses →
      (ActivationStatus.Conflict ∈ statuses →
        getAtomicCondition s (AtomicCondition.Compound (Compound.mk rules al)) nsp =
          Except.error "Overall status is unknown due to at least one Unknown value") ∧
      (ActivationStatus.Conflict ∉ statuses → ActivationStatus.False ∈ statuses →
        getAtomicCondition s (AtomicCondition.Compound (Compound.mk rules al)) nsp =
          Except.ok ActivationStatus.False) ∧
      (ActivationStatus.Conflict ∉ statuses → ActivationStatus.False ∉ statuses →
        ActivationStatus.True ∈ statuses →
        getAtomicCondition s (AtomicCondition.Compound (Compound.mk rules al)) nsp =
          Except.ok ActivationStatus.True) ∧
      (statuses = [] →
        getAtomicCondition s (AtomicCondition.Compound (Compound.mk rules al)) nsp =
          Except.error "No valid status found") := by
  intro s rules al nsp firstAlias restNs an prevRules statuses htn hla hgr hcs
  have hget : getAtomicCondition s (AtomicCondition.Compound (Compound.mk rules al)) nsp =
      overallStatusFromSet statuses := by
    simp only [getAtomicCondition, htn, List.length_cons, hla, hgr, gt_iff_lt,
      Nat.succ_pos, if_pos, hcs]
  obtain ⟨h1, h2, h3, h4⟩ := overallStatusFromSet_cases statuses
  refine ⟨fun hc => ?_, fun hc hf => ?_, fun hc hf ht => ?_, fun he => ?_⟩
  · rw [hget]
    exact h1 hc
  · rw [hget]
    exact h2 hc hf
  · rw [hget]
    exact h3 hc hf ht
  · rw [hget]
    exact h4 he

/-- Claim C2 amended, witness: on a node whose alias r stores ruleE with
handler status True, the compound evaluates to Ok(True); on the same node a
compound claiming no rules collects no status and yields the error
"No valid status found". -/
theorem C2_aggregation_amended_witness :
    getAtomicCondition trueHandlerState
        (AtomicCondition.Compound (Compound.mk [Rule.Reactive ruleE] (some "r"))) none =
      Except.ok ActivationStatus.True ∧
    getAtomicCondition trueHandlerState
        (AtomicCondition.Compound (Compound.mk [] (some "r"))) none =
      Except.error "No valid status found" :=
  ⟨(C2_aggregation_amended trueHandlerState [Rule.Reactive ruleE] (some "r") none "r" []
      (AliasNamespace.mk [] [Rule.Reactive ruleE]) [Rule.Reactive ruleE]
      [ActivationStatus.True] rfl rfl rfl rfl).2.2.1 (by decide) (by decide) (by decide),
   (C2_aggregation_amended trueHandlerState [] (some "r") none "r" []
      (AliasNamespace.mk [] [Rule.Reactive ruleE]) [Rule.Reactive ruleE] []
      rfl rfl rfl rfl).2.2.2 rfl⟩

/-- Claim C3 counterexample: a rule stored with status Conflict is NOT skipped
by the process_action route — with a per-rule evaluator that reports
failure, the route returns false, while the route the claim describes
(skipping Conflict rules) would return true. -/
theorem C3_counterexample :
    processActionRoute (fun _ => false) [((ruleE, none), ActivationStatus.Conflict)] = false ∧
    processActionRouteClaimed (fun _ => false)
      [((ruleE, none), ActivationStatus.Conflict)] = true :=
  ⟨rfl, rfl⟩

/-- Helper: the process_action loop is the accumulated conjunction over the
entries whose status is not False. -/
theorem processActionGo_eq (pri : ReactiveRule → Bool)
    (rules : List (ReactiveRuleKey × ActivationStatus)) :
    ∀ acc, processActionGo pri rules acc =
      (acc && (rules.filter (fun e => e.2 != ActivationStatus.False)).all
        (fun e => pri e.1.1)) := by
  induction rules with
  | nil => intro acc; simp [processActionGo]
  | cons e rest ih =>
    intro acc
    obtain ⟨key, value⟩ := e
    by_cases h : value = ActivationStatus.False
    · simp [processActionGo, h, ih]
    · simp [processActionGo, h, ih, Bool.and_assoc]

/-- Claim C3 as amended: the process_action route skips exactly the rules
whose stored status is False; rules with status Conflict are evaluated just
like rules with status True, and the route returns the conjunction of the
per-rule successes over all non-False rules. -/
theorem C3_skip_only_false :
    ∀ (pri : ReactiveRule → Bool) (rules : List (ReactiveRuleKey × ActivationStatus)),
      processActionRoute pri rules =
        (rules.filter (fun e => e.2 != ActivationStatus.False)).all (fun e => pri e.1.1) := by
  intro pri rules
  simpa using processActionGo_eq pri rules true

/-- Claim C4: a successful run of the new_rules route returns the empty
boolean vector regardless of the input rules (the result vector is
allocated but never filled, though each rule is processed), and therefore
process_rule_internal — which reads element 0 of that vector, defaulting to
false — reports failure for every action it fires through such a route. -/
theorem C4_new_rules_empty_vector :
    (∀ (pr : NodeState → RuleWithArgs → NodeState × RResult Bool) (s : NodeState)
        (rules : List RuleWithArgs) (l : List Bool),
        (newRulesRoute pr s rules).2 = Except.ok l → l = []) ∧
    (∀ (pc : Condition → Except String Bool)
        (nrc : List RuleWithArgs → RResult (List Bool)) (rule : ReactiveRule),
        (∀ rs l, nrc rs = Except.ok l → l = []) →
        (match (decomposeReactiveRule rule).1 with
          | some c => pc c
          | none => Except.ok true) = Except.ok true →
        processRuleInternal pc nrc rule = false) := by
  constructor
  · intro pr s rules
    induction rules generalizing s with
    | nil =>
      intro l h
      simp only [newRulesRoute] at h
      exact (Except.ok.inj h).symm
    | cons r rest ih =>
      intro l h
      simp only [newRulesRoute] at h
      rcases hpr : pr s r with ⟨s2, res⟩
      rw [hpr] at h
      cases res with
      | ok b => exact ih s2 l h
      | error e => simp at h
  · intro pc nrc rule hnrc hcond
    unfold processRuleInternal
    rcases hd : decomposeReactiveRule rule with ⟨cOpt, act⟩
    rw [hd] at hcond
    simp only
    rw [hcond]
    simp only [if_pos rfl]
    rcases hn : nrc [RuleWithArgs.Case (CaseRule.mk act)] with l | e
    · rfl
    · rw [hnrc _ _ hn]
      rfl

/-- Claim C4 witness: process_rule_internal wired to the actual new_rules
route (with a trivially succeeding per-rule processor) reports failure for
the fired action of the concrete rule ruleE, whose absent condition counts
as true. -/
theorem C4_new_rules_empty_vector_witness :
    processRuleInternal (fun _ => Except.ok true)
      (fun rs => (newRulesRoute (fun s _ => (s, Except.ok true)) emptyState rs).2)
      ruleE = false :=
  C4_new_rules_empty_vector.2 (fun _ => Except.ok true)
    (fun rs => (newRulesRoute (fun s _ => (s, Except.ok true)) emptyState rs).2) ruleE
    (fun rs l h => C4_new_rules_empty_vector.1 (fun s _ => (s, Except.ok true)) emptyState rs l h)
    rfl

/-- Claim C5 (code bug): the sub-compound branch of store_atomic_condition
does prepend the namespace segment, but recurses with the hard-coded status
ActivationStatus::False of node.rs line 667 instead of the status the
caller supplied.  First conjunct: the general recursion equation showing
the supplied value is discarded.  Second conjunct: storing n.x with True on
an empty node leaves x bound to False in the variable store. -/
theorem C5_subcompound_recursion_hardcodes_false :
    (∀ (pr : NodeState → RuleWithArgs → NodeState × RResult Bool) (s : NodeState)
        (ns : String) (cond : AtomicCondition) (value : ActivationStatus)
        (nsp : Option (List String)) (ov : Bool),
        storeAtomicCondition pr s (AtomicCondition.SubCompound ns cond) value nsp ov =
          storeAtomicCondition pr s cond ActivationStatus.False
            (some (ns :: nsp.getD [])) ov) ∧
    storeAtomicCondition (fun s _ => (s, Except.ok true)) emptyState
        (AtomicCondition.SubCompound "n" (AtomicCondition.Primitive (PrimitiveCondition.Var "x")))
        ActivationStatus.True none true =
      (NodeState.mk [(PrimitiveCondition.Var "x", ActivationStatus.False)] [] [],
        Except.ok true) := by
  constructor
  · intro pr s ns cond value nsp ov
    cases nsp <;> rfl
  · rfl

/-- Claim C6 counterexample: processing a declarative rule through
process_rule yields Ok(false) — while it leaves the state untouched, the
per-rule success value it returns is false, not the success the claim
states. -/
theorem C6_counterexample :
    processRule (fun s _ => (s, Except.ok true)) (fun s _ _ _ _ => (s, Except.ok true))
        emptyState (RuleWithArgs.Declarative (DeclarativeRule.CC none
          (AtomicCondition.Primitive (PrimitiveCondition.Var "c")))) =
      (emptyState, Except.ok false) ∧
    (Except.ok false : RResult Bool) ≠ Except.ok true := by
  refine ⟨rfl, ?_⟩
  intro h
  exact Bool.noConfusion (Except.ok.inj h)

/-- Claim C6 as amended: processing a declarative (CC/CT) rule through
process_rule (and hence through the new_rules route) is a no-op on the node
state that completes without error but returns Ok(false) — its per-rule
success boolean is false. -/
theorem C6_declarative_noop :
    ∀ (pa : NodeState → Action → NodeState × RResult Bool)
      (sac : NodeState → AtomicCondition → ActivationStatus → Option (List String) → Bool →
        NodeState × RResult Bool)
      (s : NodeState) (d : DeclarativeRule),
      processRule pa sac s (RuleWithArgs.Declarative d) = (s, Except.ok false) := by
  intro pa sac s d
  rfl

/-- Claim C7 (code bug): round-tripping fails on CT declarative rules.  The
parser produces ctRule from the source text of a CT rule, but the Display
rendering of ctRule uses the CC arrow, so parsing the rendering yields the
CC rule ccRule, which differs from ctRule. -/
theorem C7_ct_roundtrip_failure :
    parseRuleString "-o c." = some ctRule ∧
    displayRule ctRule = "-> c." ∧
    parseRuleString (displayRule ctRule) = some ccRule ∧
    some ccRule ≠ some ctRule := by
  refine ⟨rfl, rfl, rfl, ?_⟩
  intro h
  rw [ccRule, ctRule] at h
  injection h with h1
  injection h1 with h2
  exact DeclarativeRule.noConfusion h2

/-- Claim C8: the variable store never contains Conflict.  First conjunct:
update_var rejects Conflict with an error and leaves the whole state
unchanged.  Second and third conjuncts: update_var and (for any per-rule
processor preserving the invariant) store_atomic_condition — the only
writers of the variable store — preserve the property that every stored
entry is True or False.  Fourth conjunct: reading a never-assigned variable
yields Conflict as a computed value only. -/
theorem C8_store_never_conflict :
    (∀ (s : NodeState) (v : PrimitiveCondition),
        updateVar s v ActivationStatus.Conflict =
          (s, Except.error "Cannot update variable to Unknown")) ∧
    (∀ (s : NodeState) (v : PrimitiveCondition) (val : ActivationStatus),
        varsInv s → varsInv (updateVar s v val).1) ∧
    (∀ (pr : NodeState → RuleWithArgs → NodeState × RResult Bool),
        (∀ s r, varsInv s → varsInv (pr s r).1) →
        ∀ (ac : AtomicCondition) (s : NodeState) (value : ActivationStatus)
          (nsp : Option (List String)) (ov : Bool),
          varsInv s → varsInv (storeAtomicCondition pr s ac value nsp ov).1) ∧
    (∀ (s : NodeState) (p : PrimitiveCondition) (nsp : Option (List String)),
        lookupAssoc s.vars p = none →
        getAtomicCondition s (AtomicCondition.Primitive p) nsp =
          Except.ok ActivationStatus.Conflict) := by
  refine ⟨?_, ?_, ?_, ?_⟩
  · intro s v
    rfl
  · intro s v val h
    exact varsInv_updateVar s v val h
  · intro pr hpr ac s value nsp ov h
    exact varsInv_storeAtomicCondition pr hpr ac s value nsp ov h
  · intro s p nsp h
    simp [getAtomicCondition, h]

/-- Claim C8 witness: the invariant facts evaluated on concrete inputs — the
empty store satisfies the invariant, a Conflict write is rejected
unchanged, a store through store_atomic_condition keeps the invariant, and
a fresh read returns Conflict. -/
theorem C8_store_never_conflict_witness :
    updateVar emptyState (PrimitiveCondition.Var "x") ActivationStatus.Conflict =
      (emptyState, Except.error "Cannot update variable to Unknown") ∧
    varsInv (storeAtomicCondition (fun s _ => (s, Except.ok true)) emptyState
      (AtomicCondition.Primitive (PrimitiveCondition.Var "x"))
      ActivationStatus.True none true).1 ∧
    getAtomicCondition emptyState (AtomicCondition.Primitive (PrimitiveCondition.Var "y"))
      none = Except.ok ActivationStatus.Conflict :=
  ⟨C8_store_never_conflict.1 emptyState (PrimitiveCondition.Var "x"),
   C8_store_never_conflict.2.2.1 (fun s _ => (s, Except.ok true)) (fun _ _ h => h)
     (AtomicCondition.Primitive (PrimitiveCondition.Var "x")) emptyState
     ActivationStatus.True none true (fun pv hpv => absurd hpv (by simp [emptyState])),
   C8_store_never_conflict.2.2.2 emptyState (PrimitiveCondition.Var "y") none rfl⟩

/-- Claim C9 counterexample: a dot followed by an opening parenthesis — a
character that is neither whitespace nor end of input — tokenizes as
end-of-rule, not as the qualified-name dot the claim requires for every
non-whitespace follower. -/
theorem C9_counterexample :
    dotOrEndruleToken (some '(') = Token.EndRule ∧
    ('(').isWhitespace = false ∧
    lexString ".(" = [Token.EndRule, Token.LeftParenthesis] :=
  ⟨rfl, rfl, rfl⟩

/-- Claim C9 as amended: a dot tokenizes as the qualified-name dot exactly
when the immediately following character exists and is alphanumeric or an
opening curly brace; in every other case — whitespace, end of input, and
every other symbol — it tokenizes as end-of-rule. -/
theorem C9_dot_classification :
    ∀ (c : Option Char),
      dotOrEndruleToken c = Token.Dot ↔
        ∃ ch, c = some ch ∧ (rustIsAlphanumeric ch = true ∨ ch = braceOpen) := by
  intro c
  cases c with
  | none =>
    simp [dotOrEndruleToken]
  | some ch =>
    simp only [dotOrEndruleToken]
    by_cases h1 : rustIsAlphanumeric ch
    · simp [h1]
    · by_cases h2 : ch = braceOpen
      · simp [h2]
      · simp [h1, h2]

/-- Claim C10: storing a compound whose rule list contains a declarative rule
reaches the panicking arm of the rule-conversion match — the outcome is the
distinguished panic exit, not an Err return — for every per-rule processor,
every starting state and every declarative rule. -/
theorem C10_compound_declarative_panics :
    ∀ (pr : NodeState → RuleWithArgs → NodeState × RResult Bool) (s : NodeState)
      (d : DeclarativeRule),
      storeAtomicCondition pr s
          (AtomicCondition.Compound (Compound.mk [Rule.Declarative d] none))
          ActivationStatus.True none true =
        (s, Except.error (RError.panicked "Unsupported rule type in compound condition")) := by
  intro pr s d
  rfl

end CL0



